import Mathlib

/-!
Verification of the thread-pool subsystem of `projects/multithreaded_webserver/src/lib.rs`.

The development embeds the final (uncommented) implementations of the file:

* `ThreadPool::new` / `ThreadPool::execute` (pure models `ThreadPool.new`,
  `ThreadPool.execute`);
* the `Drop for ThreadPool` implementation (pure model `ThreadPool.dropModel`
  built on `joinWorkers`, and the `dropSender` / `join` steps of the system
  model);
* the final `Worker::new` loop with graceful shutdown (the `acquire`,
  `recvOk`, `recvErr`, `exec` steps of the system model `Step`);
* the `WorkerII::new` variant that keeps the mutex locked while the job runs
  (`recvOkResII`, `execResII`), used only to contrast lock discipline.

The system model `Step` is a small-step interleaving semantics: each
constructor is one atomic action of one thread (a producer calling
`execute`, a worker performing one part of its loop body, or the main
thread performing one part of `drop`).  The channel is a FIFO list, the
`Arc<Mutex<Receiver>>` is the `lockHolder` field, dropping the sender is
the `senderAlive` flag.  Ghost history fields (`submitted`, `delivered`,
`log`, `diag`) record events so that exactly-once and ordering properties
can be stated; they are never read by the transition guards.
-/

/-- A job handed to the pool: `Box<dyn FnOnce() + Send>`.  `jid` is a ghost
identifier (the submission index), `producer` a ghost tag naming the
submitting caller, and `panics` tells whether invoking the closure panics. -/
structure Job where
  jid : Nat
  producer : Nat
  panics : Bool
deriving DecidableEq, Repr

/-- Local state of one worker thread in the final `Worker::new` loop.
`runLocked` is reachable only in the `WorkerII` variant, where the
`while let` keeps the `MutexGuard` alive while the job executes. -/
inductive WPhase where
  | waiting
  | hasLock
  | run (j : Job)
  | runLocked (j : Job)
  | terminated
  | panicked
deriving DecidableEq, Repr

/-- Progress of the main thread: running (pool alive), inside the `drop`
loop about to join worker `i`, finished dropping, or panicked because a
`join()` returned `Err` and was unwrapped. -/
inductive MPhase where
  | running
  | dropping (i : Nat)
  | done
  | mainPanicked
deriving DecidableEq, Repr

/-- Global state of the pool system: worker phases and join handles
(indexed by worker id, as built by `ThreadPool::new`), the mutex on the
receiving end, the channel buffer, whether the sender is still alive,
ghost event histories, and the main-thread phase. -/
structure Sys where
  workers : List WPhase
  handles : List Bool
  lockHolder : Option Nat
  queue : List Job
  senderAlive : Bool
  submitted : List Job
  delivered : List Job
  log : List (Nat × Nat)
  diag : List Nat
  main : MPhase
deriving DecidableEq, Repr

/-- State right after `ThreadPool::new(size)`: `size` workers all in their
receive loop, all join handles present (`Some`), a fresh empty channel
shared by every worker, and the sender retained (`Some(sender)`). -/
def initSys (size : Nat) : Sys :=
  { workers := List.replicate size .waiting
    handles := List.replicate size true
    lockHolder := none
    queue := []
    senderAlive := true
    submitted := []
    delivered := []
    log := []
    diag := []
    main := .running }

/-- Effect of `ThreadPool::execute`: `self.sender.as_ref().unwrap().send(job)`
appends the boxed job to the channel.  The ghost `jid` is the submission
index, so distinct submissions carry distinct identifiers. -/
def submitRes (s : Sys) (p : Nat) (pa : Bool) : Sys :=
  let j : Job := ⟨s.submitted.length, p, pa⟩
  { s with queue := s.queue ++ [j], submitted := s.submitted ++ [j] }

/-- Worker `w` acquires the mutex: `receiver.lock().unwrap()`. -/
def acquireRes (s : Sys) (w : Nat) : Sys :=
  { s with lockHolder := some w, workers := s.workers.set w .hasLock }

/-- Worker `w` receives job `j` from the nonempty channel.  In
`let message = receiver.lock().unwrap().recv();` the temporary
`MutexGuard` is dropped when the `let` statement ends, so the lock is
released before the `Ok(job)` arm runs the job: the successor has
`lockHolder = none` and phase `run j`. -/
def recvOkRes (s : Sys) (w : Nat) (j : Job) (rest : List Job) : Sys :=
  { s with lockHolder := none
           queue := rest
           delivered := s.delivered ++ [j]
           workers := s.workers.set w (.run j) }

/-- Worker `w` observes `recv()` return `Err` (channel empty and sender
dropped): it prints the shutting-down diagnostic (recorded in `diag`),
breaks out of the loop, and the thread terminates. -/
def recvErrRes (s : Sys) (w : Nat) : Sys :=
  { s with lockHolder := none
           diag := s.diag ++ [w]
           workers := s.workers.set w .terminated }

/-- Worker `w` invokes the received job `j` (`job()`): the call is logged,
and the worker either returns to the top of its loop or, if the closure
panics, unwinds and the thread dies (no fault boundary in the loop). -/
def execRes (s : Sys) (w : Nat) (j : Job) : Sys :=
  { s with log := s.log ++ [(w, j.jid)]
           workers := s.workers.set w (if j.panics then .panicked else .waiting) }

/-- First statement of `Drop for ThreadPool`: `drop(self.sender.take());`.
The sender `Option` becomes `None`, closing the channel for all workers. -/
def dropSenderRes (s : Sys) : Sys :=
  { s with senderAlive := false, main := .dropping 0 }

/-- One iteration of the drop loop: `worker.thread.take()` gives `Some`,
the handle is joined (only possible once the thread has terminated) and
`join().unwrap()` succeeds. -/
def joinRes (s : Sys) (i : Nat) : Sys :=
  { s with handles := s.handles.set i false, main := .dropping (i+1) }

/-- One iteration of the drop loop when `worker.thread.take()` gives
`None`: the `if let Some(thread)` test fails and the loop moves on. -/
def joinSkipRes (s : Sys) (i : Nat) : Sys :=
  { s with main := .dropping (i+1) }

/-- One iteration of the drop loop where the joined thread had panicked:
`join()` returns `Err` and the `unwrap()` panics the main thread,
abandoning the remaining iterations. -/
def joinPanicRes (s : Sys) (i : Nat) : Sys :=
  { s with handles := s.handles.set i false, main := .mainPanicked }

/-- The drop loop has visited every worker; `drop` returns. -/
def finishDropRes (s : Sys) : Sys :=
  { s with main := .done }

/-- Small-step interleaving semantics of the pool.  Each constructor is an
atomic action of one thread; guards are exactly the enabling conditions of
the corresponding source statement. -/
inductive Step : Sys → Sys → Prop where
  | submit (s : Sys) (p : Nat) (pa : Bool) :
      s.senderAlive = true → Step s (submitRes s p pa)
  | acquire (s : Sys) (w : Nat) :
      s.workers[w]? = some .waiting → s.lockHolder = none →
      Step s (acquireRes s w)
  | recvOk (s : Sys) (w : Nat) (j : Job) (rest : List Job) :
      s.workers[w]? = some .hasLock → s.lockHolder = some w →
      s.queue = j :: rest → Step s (recvOkRes s w j rest)
  | recvErr (s : Sys) (w : Nat) :
      s.workers[w]? = some .hasLock → s.lockHolder = some w →
      s.queue = [] → s.senderAlive = false → Step s (recvErrRes s w)
  | exec (s : Sys) (w : Nat) (j : Job) :
      s.workers[w]? = some (.run j) → Step s (execRes s w j)
  | dropSender (s : Sys) :
      s.main = .running → Step s (dropSenderRes s)
  | join (s : Sys) (i : Nat) :
      s.main = .dropping i → s.handles[i]? = some true →
      s.workers[i]? = some .terminated → Step s (joinRes s i)
  | joinSkip (s : Sys) (i : Nat) :
      s.main = .dropping i → s.handles[i]? = some false →
      Step s (joinSkipRes s i)
  | joinPanic (s : Sys) (i : Nat) :
      s.main = .dropping i → s.handles[i]? = some true →
      s.workers[i]? = some .panicked → Step s (joinPanicRes s i)
  | finishDrop (s : Sys) (i : Nat) :
      s.main = .dropping i → s.workers.length ≤ i →
      Step s (finishDropRes s)

/-- States reachable from a freshly constructed pool of `size` workers. -/
def Reachable (size : Nat) (s : Sys) : Prop :=
  Relation.ReflTransGen Step (initSys size) s

/-- WorkerII variant of receiving: in
`while let Ok(job) = receiver.lock().unwrap().recv()` the `MutexGuard`
temporary lives until the end of the loop body, so the worker enters job
execution still holding the lock. -/
def recvOkResII (s : Sys) (w : Nat) (j : Job) (rest : List Job) : Sys :=
  { s with queue := rest
           delivered := s.delivered ++ [j]
           workers := s.workers.set w (.runLocked j) }

/-- WorkerII variant of executing: the lock is finally released only when
the loop body (including `job()`) ends. -/
def execResII (s : Sys) (w : Nat) (j : Job) : Sys :=
  { s with lockHolder := none
           log := s.log ++ [(w, j.jid)]
           workers := s.workers.set w .waiting }

/-- Ghost projection: the job identifier a worker phase is executing, if
any (only the `run` phase of the pool worker loop executes a received job
with the lock already released). -/
def phJid : WPhase → Option Nat
  | .run j => some j.jid
  | _ => none

/-- Ghost projection: identifiers of the jobs currently being executed by
some worker. -/
def runningJids (ws : List WPhase) : List Nat :=
  ws.filterMap phJid

/-- Panics of the embedded functions.  `assertFailed` is `assert!(size > 0)`
failing, `unwrapNone` is `Option::unwrap` on `None`, `sendFailed` is
`send(job).unwrap()` when the receiving side is gone, `joinFailed` is
`join().unwrap()` on a panicked thread. -/
inductive PanicKind where
  | assertFailed
  | unwrapNone
  | sendFailed
  | joinFailed
deriving DecidableEq, Repr

/-- One `Worker` record: its id and its optional join handle
(`thread: Option<JoinHandle<()>>`). -/
structure Worker where
  id : Nat
  thread : Option Unit
deriving DecidableEq, Repr

/-- The `ThreadPool` record: the workers vector and the optional sender
(`sender: Option<mpsc::Sender<Job>>`). -/
structure ThreadPool where
  workers : List Worker
  sender : Option Unit
deriving DecidableEq, Repr

/-- Pure model of `ThreadPool::new(size)`: `assert!(size > 0)` panics on
zero, otherwise workers with ids `0..size` are pushed in order, each
spawned with a live thread handle, and the sender is stored as `Some`.
An `Except.error` value is a panic, not a returned pool. -/
def ThreadPool.new (size : Nat) : Except PanicKind ThreadPool :=
  if 0 < size then
    .ok { workers := (List.range size).map (fun id => ⟨id, some ()⟩)
          sender := some () }
  else
    .error .assertFailed

/-- Pure model of `ThreadPool::execute`:
`self.sender.as_ref().unwrap().send(job).unwrap()`.  If the sender
`Option` is `None` the first `unwrap` panics (there is no error return);
otherwise the job is appended to the channel buffer, and the second
`unwrap` panics only if every receiver is gone. -/
def ThreadPool.execute (sender : Option Unit) (receiverAlive : Bool)
    (queue : List Job) (j : Job) : Except PanicKind (List Job) :=
  match sender with
  | none => .error .unwrapNone
  | some _ => if receiverAlive then .ok (queue ++ [j]) else .error .sendFailed

/-- Pure model of the join loop of `Drop for ThreadPool`.  `panicked w.id`
tells whether the thread of worker `w` terminated by panicking, in which case
`join()` yields `Err` and `unwrap()` panics, so the loop is abandoned with
the remaining workers untouched.  The boolean result records whether the
drop itself panicked. -/
def joinWorkers (panicked : Nat → Bool) : List Worker → List Worker × Bool
  | [] => ([], false)
  | w :: rest =>
    match w.thread with
    | none =>
      let r := joinWorkers panicked rest
      (⟨w.id, none⟩ :: r.1, r.2)
    | some _ =>
      if panicked w.id then
        (⟨w.id, none⟩ :: rest, true)
      else
        let r := joinWorkers panicked rest
        (⟨w.id, none⟩ :: r.1, r.2)

/-- Pure model of `Drop for ThreadPool`: take and drop the sender, then
join the workers in vector order. -/
def ThreadPool.dropModel (panicked : Nat → Bool) (p : ThreadPool) :
    ThreadPool × Bool :=
  let r := joinWorkers panicked p.workers
  ({ workers := r.1, sender := none }, r.2)

/-! ### List helper lemmas -/

theorem list_decomp (l : List α) (i : Nat) (h : i < l.length) :
    l = l.take i ++ l[i] :: l.drop (i+1) := by
  rw [List.cons_getElem_drop_succ, List.take_append_drop]

theorem list_decomp_of_getElem? {l : List α} {i : Nat} {a : α} (h : l[i]? = some a) :
    l = l.take i ++ a :: l.drop (i+1) := by
  obtain ⟨hlt, heq⟩ := List.getElem?_eq_some.mp h
  rw [← heq]
  exact list_decomp l i hlt

theorem set_decomp_of_getElem? {l : List α} {i : Nat} {a : α} (h : l[i]? = some a) (b : α) :
    l.set i b = l.take i ++ b :: l.drop (i+1) :=
  List.set_eq_take_cons_drop b (List.getElem?_eq_some.mp h).1

theorem runningJids_append (a b : List WPhase) :
    runningJids (a ++ b) = runningJids a ++ runningJids b := by
  simp [runningJids]

theorem runningJids_cons (ph : WPhase) (ws : List WPhase) :
    runningJids (ph :: ws) = (phJid ph).toList ++ runningJids ws := by
  cases h : phJid ph <;> simp [runningJids, List.filterMap_cons, h]

theorem runningJids_set_of_none {ws : List WPhase} {w : Nat} {old : WPhase}
    (h : ws[w]? = some old) (hold : phJid old = none)
    (new : WPhase) (hnew : phJid new = none) :
    runningJids (ws.set w new) = runningJids ws := by
  rw [set_decomp_of_getElem? h new]
  conv_rhs => rw [list_decomp_of_getElem? h]
  rw [runningJids_append, runningJids_cons, runningJids_append, runningJids_cons,
    hold, hnew]

theorem runningJids_set_some_of_none {ws : List WPhase} {w : Nat} {old : WPhase}
    (h : ws[w]? = some old) (hold : phJid old = none)
    (new : WPhase) {x : Nat} (hnew : phJid new = some x) :
    (runningJids (ws.set w new)).Perm (x :: runningJids ws) := by
  rw [set_decomp_of_getElem? h new]
  conv_rhs => rw [list_decomp_of_getElem? h]
  rw [runningJids_append, runningJids_cons, runningJids_append, runningJids_cons,
    hold, hnew]
  simp

theorem runningJids_set_none_of_some {ws : List WPhase} {w : Nat} {old : WPhase}
    (h : ws[w]? = some old) {x : Nat} (hold : phJid old = some x)
    (new : WPhase) (hnew : phJid new = none) :
    (runningJids ws).Perm (x :: runningJids (ws.set w new)) := by
  rw [set_decomp_of_getElem? h new]
  conv_lhs => rw [list_decomp_of_getElem? h]
  rw [runningJids_append, runningJids_cons, runningJids_append, runningJids_cons,
    hold, hnew]
  simp

/-! ### Invariants of the system model -/

/-- Invariant tying the main-thread phase to the sender and the join
handles: the sender dies at the first statement of `drop`, and the drop
loop joins workers in order, taking each handle exactly once and only
after the corresponding thread terminated. -/
def MainInv (size : Nat) (s : Sys) : Prop :=
  (s.main = .running → s.senderAlive = true ∧ s.handles = List.replicate size true) ∧
  (∀ i, s.main = .dropping i → s.senderAlive = false ∧ i ≤ size ∧
      (∀ k, k < i → s.handles[k]? = some false ∧ s.workers[k]? = some .terminated) ∧
      (∀ k, i ≤ k → k < size → s.handles[k]? = some true)) ∧
  (s.main = .done → s.senderAlive = false ∧
      (∀ k, k < size → s.handles[k]? = some false ∧ s.workers[k]? = some .terminated)) ∧
  (s.main = .mainPanicked → s.senderAlive = false)

/-- Inductive invariant of the pool system: sizes are fixed, the mutex is
held exactly by the worker in phase `hasLock`, the WorkerII phase never
occurs, ghost histories account for every job exactly once
(`submitted = delivered ++ queue`, and the delivered jobs are exactly the
logged ones plus those currently running), job identifiers are the
submission indices (hence pairwise distinct), a terminated worker
certifies that the sender is dead and the channel drained, and `MainInv`
holds. -/
structure SysInv (size : Nat) (s : Sys) : Prop where
  lenW : s.workers.length = size
  lenH : s.handles.length = size
  lock1 : ∀ w, s.workers[w]? = some .hasLock → s.lockHolder = some w
  lock2 : ∀ w, s.lockHolder = some w → s.workers[w]? = some .hasLock
  noII : ∀ (w : Nat) (j : Job), s.workers[w]? ≠ some (.runLocked j)
  acct : s.submitted = s.delivered ++ s.queue
  jids : s.submitted.map Job.jid = List.range s.submitted.length
  deliv : (s.delivered.map Job.jid).Perm (s.log.map Prod.snd ++ runningJids s.workers)
  termQ : (∃ w : Nat, s.workers[w]? = some .terminated) → s.senderAlive = false ∧ s.queue = []
  mainI : MainInv size s

theorem inv_init (size : Nat) : SysInv size (initSys size) := by
  constructor <;>
    simp [initSys, MainInv, runningJids, phJid, List.getElem?_replicate]

theorem inv_submit {size : Nat} {s : Sys} (inv : SysInv size s) (p : Nat) (pa : Bool)
    (halive : s.senderAlive = true) : SysInv size (submitRes s p pa) := by
  obtain ⟨lenW, lenH, lock1, lock2, noII, acct, jids, deliv, termQ, mainI⟩ := inv
  refine ⟨lenW, lenH, lock1, lock2, noII, ?_, ?_, deliv, ?_, mainI⟩
  · simp only [submitRes]
    rw [acct, List.append_assoc]
  · simp only [submitRes]
    rw [List.map_append, jids, List.length_append]
    simp [List.range_succ]
  · intro hex
    have := (termQ hex).1
    rw [halive] at this
    exact absurd this (by simp)

theorem inv_acquire {size : Nat} {s : Sys} (inv : SysInv size s) (w : Nat)
    (hw : s.workers[w]? = some .waiting) (hl : s.lockHolder = none) :
    SysInv size (acquireRes s w) := by
  obtain ⟨lenW, lenH, lock1, lock2, noII, acct, jids, deliv, termQ, mainI⟩ := inv
  have hwlt : w < s.workers.length := (List.getElem?_eq_some.mp hw).1
  refine ⟨?_, lenH, ?_, ?_, ?_, acct, jids, ?_, ?_, ?_⟩
  · simpa [acquireRes] using lenW
  · intro w' h
    simp only [acquireRes] at h ⊢
    by_cases hww : w = w'
    · exact congrArg some hww
    · rw [List.getElem?_set_ne hww] at h
      rw [lock1 w' h] at hl
      exact absurd hl (by simp)
  · intro w' h
    simp only [acquireRes] at h ⊢
    cases h
    exact List.getElem?_set_self hwlt
  · intro w' j h
    simp only [acquireRes] at h
    by_cases hww : w = w'
    · subst hww
      rw [List.getElem?_set_self hwlt] at h
      exact absurd h (by simp)
    · rw [List.getElem?_set_ne hww] at h
      exact noII w' j h
  · simp only [acquireRes]
    rwa [runningJids_set_of_none hw rfl .hasLock rfl]
  · intro ⟨w', h⟩
    simp only [acquireRes] at h
    by_cases hww : w = w'
    · subst hww
      rw [List.getElem?_set_self hwlt] at h
      exact absurd h (by simp)
    · rw [List.getElem?_set_ne hww] at h
      exact termQ ⟨w', h⟩
  · obtain ⟨mRun, mDrop, mDone, mPanic⟩ := mainI
    refine ⟨mRun, ?_, ?_, mPanic⟩
    · intro i hm
      obtain ⟨ha, hi, hlt, hge⟩ := mDrop i hm
      refine ⟨ha, hi, ?_, hge⟩
      intro k hk
      obtain ⟨h1, h2⟩ := hlt k hk
      refine ⟨h1, ?_⟩
      simp only [acquireRes]
      by_cases hkw : w = k
      · subst hkw
        rw [hw] at h2
        exact absurd h2 (by simp)
      · rwa [List.getElem?_set_ne hkw]
    · intro hm
      obtain ⟨ha, hall⟩ := mDone hm
      refine ⟨ha, ?_⟩
      intro k hk
      obtain ⟨h1, h2⟩ := hall k hk
      refine ⟨h1, ?_⟩
      simp only [acquireRes]
      by_cases hkw : w = k
      · subst hkw
        rw [hw] at h2
        exact absurd h2 (by simp)
      · rwa [List.getElem?_set_ne hkw]

theorem mainInv_congr {size : Nat} {s : Sys} (mainI : MainInv size s)
    {s' : Sys} (hm : s'.main = s.main) (ha : s'.senderAlive = s.senderAlive)
    (hh : s'.handles = s.handles)
    (hterm : ∀ k : Nat, s.workers[k]? = some .terminated →
      s'.workers[k]? = some .terminated) :
    MainInv size s' := by
  obtain ⟨mRun, mDrop, mDone, mPanic⟩ := mainI
  refine ⟨?_, ?_, ?_, ?_⟩
  · intro h
    rw [hm] at h
    rw [ha, hh]
    exact mRun h
  · intro i h
    rw [hm] at h
    obtain ⟨h1, h2, h3, h4⟩ := mDrop i h
    rw [ha, hh]
    exact ⟨h1, h2, fun k hk => ⟨(h3 k hk).1, hterm k (h3 k hk).2⟩, h4⟩
  · intro h
    rw [hm] at h
    obtain ⟨h1, h2⟩ := mDone h
    rw [ha, hh]
    exact ⟨h1, fun k hk => ⟨(h2 k hk).1, hterm k (h2 k hk).2⟩⟩
  · intro h
    rw [hm] at h
    rw [ha]
    exact mPanic h

theorem inv_recvOk {size : Nat} {s : Sys} (inv : SysInv size s) (w : Nat)
    (j : Job) (rest : List Job)
    (hw : s.workers[w]? = some .hasLock) (hl : s.lockHolder = some w)
    (hq : s.queue = j :: rest) :
    SysInv size (recvOkRes s w j rest) := by
  obtain ⟨lenW, lenH, lock1, lock2, noII, acct, jids, deliv, termQ, mainI⟩ := inv
  have hwlt : w < s.workers.length := (List.getElem?_eq_some.mp hw).1
  refine ⟨?_, lenH, ?_, ?_, ?_, ?_, jids, ?_, ?_, ?_⟩
  · simpa [recvOkRes] using lenW
  · intro w' h
    simp only [recvOkRes] at h ⊢
    by_cases hww : w = w'
    · subst hww
      rw [List.getElem?_set_self hwlt] at h
      exact absurd h (by simp)
    · rw [List.getElem?_set_ne hww] at h
      have := lock1 w' h
      rw [hl] at this
      cases this
      exact absurd rfl hww
  · intro w' h
    simp only [recvOkRes] at h
    exact absurd h (by simp)
  · intro w' j' h
    simp only [recvOkRes] at h
    by_cases hww : w = w'
    · subst hww
      rw [List.getElem?_set_self hwlt] at h
      exact absurd h (by simp)
    · rw [List.getElem?_set_ne hww] at h
      exact noII w' j' h
  · simp only [recvOkRes]
    rw [acct, hq]
    simp
  · simp only [recvOkRes]
    have hperm := runningJids_set_some_of_none hw rfl (.run j) (x := j.jid) rfl
    have hmap : (s.delivered ++ [j]).map Job.jid
        = s.delivered.map Job.jid ++ [j.jid] := by simp
    rw [hmap]
    have h3 : (runningJids s.workers ++ [j.jid]).Perm
        (runningJids (s.workers.set w (.run j))) :=
      (List.perm_append_singleton j.jid _).trans hperm.symm
    have h4 := deliv.append_right [j.jid]
    rw [List.append_assoc] at h4
    exact h4.trans (h3.append_left _)
  · intro ⟨w', h⟩
    simp only [recvOkRes] at h
    by_cases hww : w = w'
    · subst hww
      rw [List.getElem?_set_self hwlt] at h
      exact absurd h (by simp)
    · rw [List.getElem?_set_ne hww] at h
      have := (termQ ⟨w', h⟩).2
      rw [hq] at this
      exact absurd this (by simp)
  · refine mainInv_congr mainI rfl rfl rfl ?_
    intro k hk
    simp only [recvOkRes]
    by_cases hkw : w = k
    · subst hkw
      rw [hw] at hk
      exact absurd hk (by simp)
    · rwa [List.getElem?_set_ne hkw]

theorem inv_recvErr {size : Nat} {s : Sys} (inv : SysInv size s) (w : Nat)
    (hw : s.workers[w]? = some .hasLock) (hl : s.lockHolder = some w)
    (hq : s.queue = []) (ha : s.senderAlive = false) :
    SysInv size (recvErrRes s w) := by
  obtain ⟨lenW, lenH, lock1, lock2, noII, acct, jids, deliv, termQ, mainI⟩ := inv
  have hwlt : w < s.workers.length := (List.getElem?_eq_some.mp hw).1
  refine ⟨?_, lenH, ?_, ?_, ?_, acct, jids, ?_, ?_, ?_⟩
  · simpa [recvErrRes] using lenW
  · intro w' h
    simp only [recvErrRes] at h ⊢
    by_cases hww : w = w'
    · subst hww
      rw [List.getElem?_set_self hwlt] at h
      exact absurd h (by simp)
    · rw [List.getElem?_set_ne hww] at h
      have := lock1 w' h
      rw [hl] at this
      cases this
      exact absurd rfl hww
  · intro w' h
    simp only [recvErrRes] at h
    exact absurd h (by simp)
  · intro w' j' h
    simp only [recvErrRes] at h
    by_cases hww : w = w'
    · subst hww
      rw [List.getElem?_set_self hwlt] at h
      exact absurd h (by simp)
    · rw [List.getElem?_set_ne hww] at h
      exact noII w' j' h
  · simp only [recvErrRes]
    rwa [runningJids_set_of_none hw rfl .terminated rfl]
  · intro _
    exact ⟨ha, hq⟩
  · refine mainInv_congr mainI rfl rfl rfl ?_
    intro k hk
    simp only [recvErrRes]
    by_cases hkw : w = k
    · subst hkw
      exact List.getElem?_set_self hwlt
    · rwa [List.getElem?_set_ne hkw]

theorem inv_exec {size : Nat} {s : Sys} (inv : SysInv size s) (w : Nat) (j : Job)
    (hw : s.workers[w]? = some (.run j)) :
    SysInv size (execRes s w j) := by
  obtain ⟨lenW, lenH, lock1, lock2, noII, acct, jids, deliv, termQ, mainI⟩ := inv
  have hwlt : w < s.workers.length := (List.getElem?_eq_some.mp hw).1
  have hnew : phJid (if j.panics then WPhase.panicked else WPhase.waiting) = none := by
    cases j.panics <;> simp [phJid]
  refine ⟨?_, lenH, ?_, ?_, ?_, acct, jids, ?_, ?_, ?_⟩
  · simpa [execRes] using lenW
  · intro w' h
    simp only [execRes] at h ⊢
    by_cases hww : w = w'
    · subst hww
      rw [List.getElem?_set_self hwlt] at h
      cases hp : j.panics <;> rw [hp] at h <;> exact absurd h (by simp)
    · rw [List.getElem?_set_ne hww] at h
      exact lock1 w' h
  · intro w' h
    simp only [execRes] at h ⊢
    have h2 := lock2 w' h
    by_cases hww : w = w'
    · subst hww
      rw [hw] at h2
      exact absurd h2 (by simp)
    · rwa [List.getElem?_set_ne hww]
  · intro w' j' h
    simp only [execRes] at h
    by_cases hww : w = w'
    · subst hww
      rw [List.getElem?_set_self hwlt] at h
      cases hp : j.panics <;> rw [hp] at h <;> exact absurd h (by simp)
    · rw [List.getElem?_set_ne hww] at h
      exact noII w' j' h
  · simp only [execRes]
    have hperm := runningJids_set_none_of_some hw (x := j.jid) rfl
      (if j.panics then .panicked else .waiting) hnew
    have hmap : (s.log ++ [(w, j.jid)]).map Prod.snd
        = s.log.map Prod.snd ++ [j.jid] := by simp
    rw [hmap, List.append_assoc]
    exact deliv.trans (hperm.append_left _)
  · intro ⟨w', h⟩
    simp only [execRes] at h
    by_cases hww : w = w'
    · subst hww
      rw [List.getElem?_set_self hwlt] at h
      cases hp : j.panics <;> rw [hp] at h <;> exact absurd h (by simp)
    · rw [List.getElem?_set_ne hww] at h
      exact termQ ⟨w', h⟩
  · refine mainInv_congr mainI rfl rfl rfl ?_
    intro k hk
    simp only [execRes]
    by_cases hkw : w = k
    · subst hkw
      rw [hw] at hk
      exact absurd hk (by simp)
    · rwa [List.getElem?_set_ne hkw]

theorem inv_dropSender {size : Nat} {s : Sys} (inv : SysInv size s)
    (hm : s.main = .running) : SysInv size (dropSenderRes s) := by
  obtain ⟨lenW, lenH, lock1, lock2, noII, acct, jids, deliv, termQ, mainI⟩ := inv
  obtain ⟨mRun, mDrop, mDone, mPanic⟩ := mainI
  obtain ⟨halive, hrep⟩ := mRun hm
  refine ⟨lenW, lenH, lock1, lock2, noII, acct, jids, deliv, ?_, ?_, ?_, ?_, ?_⟩
  · intro hex
    exact ⟨rfl, (termQ hex).2⟩
  · intro h
    simp [dropSenderRes] at h
  · intro i h
    simp only [dropSenderRes] at h
    cases h
    refine ⟨rfl, Nat.zero_le _, ?_, ?_⟩
    · intro k hk
      exact absurd hk (Nat.not_lt_zero k)
    · intro k _ hk
      simp only [dropSenderRes]
      rw [hrep]
      exact List.getElem?_replicate_of_lt hk
  · intro h
    simp [dropSenderRes] at h
  · intro h
    simp [dropSenderRes] at h

theorem inv_join {size : Nat} {s : Sys} (inv : SysInv size s) (i : Nat)
    (hm : s.main = .dropping i) (hh : s.handles[i]? = some true)
    (hw : s.workers[i]? = some .terminated) : SysInv size (joinRes s i) := by
  obtain ⟨lenW, lenH, lock1, lock2, noII, acct, jids, deliv, termQ, mainI⟩ := inv
  obtain ⟨mRun, mDrop, mDone, mPanic⟩ := mainI
  obtain ⟨ha, hile, hbefore, hafter⟩ := mDrop i hm
  have hilt : i < s.handles.length := (List.getElem?_eq_some.mp hh).1
  refine ⟨lenW, ?_, lock1, lock2, noII, acct, jids, deliv, termQ, ?_, ?_, ?_, ?_⟩
  · simpa [joinRes] using lenH
  · intro h
    simp [joinRes] at h
  · intro i' h
    simp only [joinRes] at h
    cases h
    refine ⟨ha, by omega, ?_, ?_⟩
    · intro k hk
      simp only [joinRes]
      by_cases hki : i = k
      · subst hki
        exact ⟨List.getElem?_set_self hilt, hw⟩
      · rw [List.getElem?_set_ne hki]
        exact hbefore k (by omega)
    · intro k hk1 hk2
      simp only [joinRes]
      have hki : i ≠ k := by omega
      rw [List.getElem?_set_ne hki]
      exact hafter k (by omega) hk2
  · intro h
    simp [joinRes] at h
  · intro h
    simp [joinRes] at h

theorem inv_joinSkip {size : Nat} {s : Sys} (inv : SysInv size s) (i : Nat)
    (hm : s.main = .dropping i) (hh : s.handles[i]? = some false) :
    SysInv size (joinSkipRes s i) := by
  obtain ⟨lenW, lenH, lock1, lock2, noII, acct, jids, deliv, termQ, mainI⟩ := inv
  obtain ⟨mRun, mDrop, mDone, mPanic⟩ := mainI
  obtain ⟨ha, hile, hbefore, hafter⟩ := mDrop i hm
  by_cases hi : i < size
  · have := hafter i (Nat.le_refl i) hi
    rw [hh] at this
    exact absurd this (by simp)
  · have : s.handles[i]? = none := List.getElem?_eq_none_iff.mpr (by omega)
    rw [hh] at this
    exact absurd this (by simp)

theorem inv_joinPanic {size : Nat} {s : Sys} (inv : SysInv size s) (i : Nat)
    (hm : s.main = .dropping i) ( _hh : s.handles[i]? = some true)
    ( _hw : s.workers[i]? = some .panicked) : SysInv size (joinPanicRes s i) := by
  obtain ⟨lenW, lenH, lock1, lock2, noII, acct, jids, deliv, termQ, mainI⟩ := inv
  obtain ⟨mRun, mDrop, mDone, mPanic⟩ := mainI
  obtain ⟨ha, hile, hbefore, hafter⟩ := mDrop i hm
  refine ⟨lenW, ?_, lock1, lock2, noII, acct, jids, deliv, termQ, ?_, ?_, ?_, ?_⟩
  · simpa [joinPanicRes] using lenH
  · intro h
    simp [joinPanicRes] at h
  · intro i' h
    simp [joinPanicRes] at h
  · intro h
    simp [joinPanicRes] at h
  · intro _
    exact ha

theorem inv_finishDrop {size : Nat} {s : Sys} (inv : SysInv size s) (i : Nat)
    (hm : s.main = .dropping i) (hlen : s.workers.length ≤ i) :
    SysInv size (finishDropRes s) := by
  obtain ⟨lenW, lenH, lock1, lock2, noII, acct, jids, deliv, termQ, mainI⟩ := inv
  obtain ⟨mRun, mDrop, mDone, mPanic⟩ := mainI
  obtain ⟨ha, hile, hbefore, hafter⟩ := mDrop i hm
  refine ⟨lenW, lenH, lock1, lock2, noII, acct, jids, deliv, termQ, ?_, ?_, ?_, ?_⟩
  · intro h
    simp [finishDropRes] at h
  · intro i' h
    simp [finishDropRes] at h
  · intro _
    refine ⟨ha, ?_⟩
    intro k hk
    exact hbefore k (by omega)
  · intro h
    simp [finishDropRes] at h

theorem inv_step {size : Nat} {s s' : Sys} (inv : SysInv size s)
    (hst : Step s s') : SysInv size s' := by
  cases hst with
  | submit p pa h => exact inv_submit inv p pa h
  | acquire w hw hl => exact inv_acquire inv w hw hl
  | recvOk w j rest hw hl hq => exact inv_recvOk inv w j rest hw hl hq
  | recvErr w hw hl hq ha => exact inv_recvErr inv w hw hl hq ha
  | exec w j hw => exact inv_exec inv w j hw
  | dropSender hm => exact inv_dropSender inv hm
  | join i hm hh hw => exact inv_join inv i hm hh hw
  | joinSkip i hm hh => exact inv_joinSkip inv i hm hh
  | joinPanic i hm hh hw => exact inv_joinPanic inv i hm hh hw
  | finishDrop i hm hlen => exact inv_finishDrop inv i hm hlen

theorem reachable_inv {size : Nat} {s : Sys} (h : Reachable size s) :
    SysInv size s := by
  induction h with
  | refl => exact inv_init size
  | tail _ hst ih => exact inv_step ih hst

/-! ### Absorbing states and frame lemmas -/

theorem step_terminated_absorbing {s s' : Sys} (hst : Step s s') (w : Nat)
    (h : s.workers[w]? = some .terminated) :
    s'.workers[w]? = some .terminated := by
  cases hst with
  | submit p pa ha => exact h
  | acquire w' hw hl =>
    simp only [acquireRes]
    by_cases hww : w' = w
    · subst hww
      rw [hw] at h
      exact absurd h (by simp)
    · rwa [List.getElem?_set_ne hww]
  | recvOk w' j rest hw hl hq =>
    simp only [recvOkRes]
    by_cases hww : w' = w
    · subst hww
      rw [hw] at h
      exact absurd h (by simp)
    · rwa [List.getElem?_set_ne hww]
  | recvErr w' hw hl hq ha =>
    simp only [recvErrRes]
    by_cases hww : w' = w
    · subst hww
      exact List.getElem?_set_self (List.getElem?_eq_some.mp hw).1
    · rwa [List.getElem?_set_ne hww]
  | exec w' j hw =>
    simp only [execRes]
    by_cases hww : w' = w
    · subst hww
      rw [hw] at h
      exact absurd h (by simp)
    · rwa [List.getElem?_set_ne hww]
  | dropSender hm => exact h
  | join i hm hh hw => exact h
  | joinSkip i hm hh => exact h
  | joinPanic i hm hh hw => exact h
  | finishDrop i hm hlen => exact h

theorem step_panicked_absorbing {s s' : Sys} (hst : Step s s') (w : Nat)
    (h : s.workers[w]? = some .panicked) :
    s'.workers[w]? = some .panicked := by
  cases hst with
  | submit p pa ha => exact h
  | acquire w' hw hl =>
    simp only [acquireRes]
    by_cases hww : w' = w
    · subst hww
      rw [hw] at h
      exact absurd h (by simp)
    · rwa [List.getElem?_set_ne hww]
  | recvOk w' j rest hw hl hq =>
    simp only [recvOkRes]
    by_cases hww : w' = w
    · subst hww
      rw [hw] at h
      exact absurd h (by simp)
    · rwa [List.getElem?_set_ne hww]
  | recvErr w' hw hl hq ha =>
    simp only [recvErrRes]
    by_cases hww : w' = w
    · subst hww
      rw [hw] at h
      exact absurd h (by simp)
    · rwa [List.getElem?_set_ne hww]
  | exec w' j hw =>
    simp only [execRes]
    by_cases hww : w' = w
    · subst hww
      rw [hw] at h
      exact absurd h (by simp)
    · rwa [List.getElem?_set_ne hww]
  | dropSender hm => exact h
  | join i hm hh hw => exact h
  | joinSkip i hm hh => exact h
  | joinPanic i hm hh hw => exact h
  | finishDrop i hm hlen => exact h

theorem step_workers_length {s s' : Sys} (hst : Step s s') :
    s'.workers.length = s.workers.length := by
  cases hst <;>
    simp [submitRes, acquireRes, recvOkRes, recvErrRes, execRes,
      dropSenderRes, joinRes, joinSkipRes, joinPanicRes, finishDropRes]

theorem step_senderDead_absorbing {s s' : Sys} (hst : Step s s')
    (h : s.senderAlive = false) : s'.senderAlive = false := by
  cases hst with
  | submit p pa ha =>
    rw [ha] at h
    exact absurd h (by simp)
  | acquire w hw hl => exact h
  | recvOk w j rest hw hl hq => exact h
  | recvErr w hw hl hq ha => exact h
  | exec w j hw => exact h
  | dropSender hm => rfl
  | join i hm hh hw => exact h
  | joinSkip i hm hh => exact h
  | joinPanic i hm hh hw => exact h
  | finishDrop i hm hlen => exact h

theorem step_submitted_of_dead {s s' : Sys} (hst : Step s s')
    (h : s.senderAlive = false) : s'.submitted = s.submitted := by
  cases hst with
  | submit p pa ha =>
    rw [ha] at h
    exact absurd h (by simp)
  | acquire w hw hl => rfl
  | recvOk w j rest hw hl hq => rfl
  | recvErr w hw hl hq ha => rfl
  | exec w j hw => rfl
  | dropSender hm => rfl
  | join i hm hh hw => rfl
  | joinSkip i hm hh => rfl
  | joinPanic i hm hh hw => rfl
  | finishDrop i hm hlen => rfl

theorem step_mainPanicked_absorbing {s s' : Sys} (hst : Step s s')
    (h : s.main = .mainPanicked) : s'.main = .mainPanicked := by
  cases hst with
  | submit p pa ha => exact h
  | acquire w hw hl => exact h
  | recvOk w j rest hw hl hq => exact h
  | recvErr w hw hl hq ha => exact h
  | exec w j hw => exact h
  | dropSender hm =>
    rw [h] at hm
    exact absurd hm (by simp)
  | join i hm hh hw =>
    rw [h] at hm
    exact absurd hm (by simp)
  | joinSkip i hm hh =>
    rw [h] at hm
    exact absurd hm (by simp)
  | joinPanic i hm hh hw =>
    rw [h] at hm
    exact absurd hm (by simp)
  | finishDrop i hm hlen =>
    rw [h] at hm
    exact absurd hm (by simp)

/-- A worker counts as live execution capacity unless its thread has
exited (graceful termination) or died from an uncaught job fault. -/
def isLive : WPhase → Bool
  | .terminated => false
  | .panicked => false
  | _ => true

/-- Number of workers still able to execute jobs. -/
def liveCount (ws : List WPhase) : Nat :=
  ws.countP isLive

theorem liveCount_set_panicked {ws : List WPhase} {w : Nat} {j : Job}
    (h : ws[w]? = some (.run j)) :
    liveCount (ws.set w .panicked) + 1 = liveCount ws := by
  rw [set_decomp_of_getElem? h .panicked]
  conv_rhs => rw [list_decomp_of_getElem? h]
  simp [liveCount, List.countP_append, List.countP_cons, isLive]
  omega

/-! ### A concrete complete run, used to instantiate the reachability
hypotheses of the main theorems: one worker, one submitted job, executed,
then a full graceful shutdown. -/

def sFinal : Sys :=
  finishDropRes (joinRes (recvErrRes (acquireRes (dropSenderRes (execRes
    (recvOkRes (acquireRes (submitRes (initSys 1) 0 false) 0)
      0 ⟨0, 0, false⟩ []) 0 ⟨0, 0, false⟩)) 0) 0) 0)

theorem reachable_sFinal : Reachable 1 sFinal := by
  have h0 : Reachable 1 (initSys 1) := Relation.ReflTransGen.refl
  have h1 := h0.tail (Step.submit _ 0 false (by decide))
  have h2 := h1.tail (Step.acquire _ 0 (by decide) (by decide))
  have h3 := h2.tail (Step.recvOk _ 0 ⟨0, 0, false⟩ [] (by decide) (by decide)
    (by decide))
  have h4 := h3.tail (Step.exec _ 0 ⟨0, 0, false⟩ (by decide))
  have h5 := h4.tail (Step.dropSender _ (by decide))
  have h6 := h5.tail (Step.acquire _ 0 (by decide) (by decide))
  have h7 := h6.tail (Step.recvErr _ 0 (by decide) (by decide) (by decide)
    (by decide))
  have h8 := h7.tail (Step.join _ 0 (by decide) (by decide) (by decide))
  exact h8.tail (Step.finishDrop _ 1 (by decide) (by decide))

/-- Two producers, order producer 0 first. -/
def sAB : Sys := submitRes (submitRes (initSys 1) 0 false) 1 false

/-- Two producers, order producer 1 first. -/
def sBA : Sys := submitRes (submitRes (initSys 1) 1 false) 0 false

theorem reachable_sAB : Reachable 1 sAB :=
  (Relation.ReflTransGen.refl.tail
    (Step.submit _ 0 false (by decide))).tail (Step.submit _ 1 false (by decide))

theorem reachable_sBA : Reachable 1 sBA :=
  (Relation.ReflTransGen.refl.tail
    (Step.submit _ 1 false (by decide))).tail (Step.submit _ 0 false (by decide))

/-! ### Behaviour of the drop-loop model `joinWorkers` -/

theorem joinWorkers_clean (panicked : Nat → Bool) (ws : List Worker)
    (h : ∀ v ∈ ws, v.thread = some () → panicked v.id = false) :
    joinWorkers panicked ws = (ws.map (fun v => ⟨v.id, none⟩), false) := by
  induction ws with
  | nil => rfl
  | cons w rest ih =>
    have hrest := ih (fun v hv => h v (List.mem_cons_of_mem w hv))
    cases hw : w.thread with
    | none =>
      simp [joinWorkers, hw, hrest]
    | some u =>
      cases u
      have hp := h w (List.mem_cons_self w rest) hw
      simp [joinWorkers, hw, hp, hrest]

theorem joinWorkers_panic (panicked : Nat → Bool) (pre post : List Worker)
    (w : Worker) (hw : w.thread = some ()) (hpan : panicked w.id = true)
    (hpre : ∀ v ∈ pre, panicked v.id = false) :
    joinWorkers panicked (pre ++ w :: post)
      = (pre.map (fun v => ⟨v.id, none⟩) ++ (⟨w.id, none⟩ : Worker) :: post,
          true) := by
  induction pre with
  | nil =>
    simp [joinWorkers, hw, hpan]
  | cons v rest ih =>
    have hv := hpre v (List.mem_cons_self v rest)
    have hrest := ih (fun u hu => hpre u (List.mem_cons_of_mem v hu))
    cases hvt : v.thread with
    | none => simp [joinWorkers, hvt, hrest]
    | some u =>
      cases u
      simp [joinWorkers, hvt, hv, hrest]

theorem joinWorkers_panics_iff (panicked : Nat → Bool) (ws : List Worker) :
    (joinWorkers panicked ws).2 = true ↔
      ∃ v ∈ ws, v.thread = some () ∧ panicked v.id = true := by
  induction ws with
  | nil => simp [joinWorkers]
  | cons w rest ih =>
    cases hw : w.thread with
    | none =>
      simp only [joinWorkers, hw]
      rw [ih]
      constructor
      · intro ⟨v, hv, hp⟩
        exact ⟨v, List.mem_cons_of_mem w hv, hp⟩
      · intro ⟨v, hv, hp⟩
        rcases List.mem_cons.mp hv with hveq | hvmem
        · subst hveq
          rw [hw] at hp
          exact absurd hp.1 (by simp)
        · exact ⟨v, hvmem, hp⟩
    | some u =>
      cases u
      by_cases hp : panicked w.id = true
      · simp only [joinWorkers, hw, hp]
        simp only [if_true]
        constructor
        · intro _
          exact ⟨w, List.mem_cons_self w rest, hw, hp⟩
        · intro _
          trivial
      · simp only [joinWorkers, hw, if_neg hp]
        rw [ih]
        constructor
        · intro ⟨v, hv, hq⟩
          exact ⟨v, List.mem_cons_of_mem w hv, hq⟩
        · intro ⟨v, hv, hq⟩
          rcases List.mem_cons.mp hv with hveq | hvmem
          · subst hveq
            exact absurd hq.2 hp
          · exact ⟨v, hvmem, hq⟩

/-! ### Claim theorems -/

/-- C2: for `size = 0`, pool construction fails immediately and
deterministically at the `assert!(size > 0)` check (modelled as the panic
value `Except.error .assertFailed`) and never returns a pool value that
could accept submissions. -/
theorem new_zero_fails (size : Nat) (h : size = 0) :
    ThreadPool.new size = .error .assertFailed ∧
    ∀ p : ThreadPool, ThreadPool.new size ≠ .ok p := by
  subst h
  refine ⟨rfl, ?_⟩
  intro p hp
  simp [ThreadPool.new] at hp

theorem new_zero_fails_witness :
    ThreadPool.new 0 = .error .assertFailed ∧
    ∀ p : ThreadPool, ThreadPool.new 0 ≠ .ok p :=
  new_zero_fails 0 rfl

/-- C6: for every `size > 0`, `ThreadPool::new(size)` returns a pool whose
workers vector holds exactly `size` workers, pushed eagerly with ids drawn
in order from `0` to `size-1`, each with a live (joinable) thread handle,
and with the producing handle retained (`sender = Some`).  In the system
model the fresh construction state has all `size` workers blocked on the
one freshly created empty channel, whose sender is alive. -/
theorem new_pos_structure (size : Nat) (h : 0 < size) :
    (∃ p : ThreadPool, ThreadPool.new size = .ok p ∧
      p.workers.length = size ∧
      p.workers.map Worker.id = List.range size ∧
      (∀ w ∈ p.workers, w.thread = some ()) ∧
      p.sender = some ()) ∧
    (initSys size).workers = List.replicate size .waiting ∧
    (initSys size).workers.length = size ∧
    (initSys size).queue = [] ∧
    (initSys size).senderAlive = true := by
  refine ⟨⟨{ workers := (List.range size).map (fun id => ⟨id, some ()⟩)
             sender := some () }, ?_, ?_, ?_, ?_, rfl⟩, rfl, by simp [initSys], rfl, rfl⟩
  · simp [ThreadPool.new, h]
  · simp
  · simp [List.map_map, Function.comp_def]
  · intro w hw
    obtain ⟨i, _, hiw⟩ := List.mem_map.mp hw
    rw [← hiw]

theorem new_pos_structure_witness :
    0 < 3 ∧
    ((∃ p : ThreadPool, ThreadPool.new 3 = .ok p ∧
      p.workers.length = 3 ∧
      p.workers.map Worker.id = List.range 3 ∧
      (∀ w ∈ p.workers, w.thread = some ()) ∧
      p.sender = some ()) ∧
    (initSys 3).workers = List.replicate 3 .waiting ∧
    (initSys 3).workers.length = 3 ∧
    (initSys 3).queue = [] ∧
    (initSys 3).senderAlive = true) :=
  ⟨by decide, new_pos_structure 3 (by decide)⟩

/-- C9: once teardown has taken the producing handle no submission can
ever enqueue again (no step grows `submitted` and the sender stays dead),
the very first teardown action removes the handle, and calling the
modelled `execute` with the sender `Option` already `None` is an
`unwrap()` panic, not an error value reported to the caller. -/
theorem submit_after_shutdown_impossible :
    (∀ s s' : Sys, Step s s' → s.senderAlive = false →
      s'.submitted = s.submitted ∧ s'.senderAlive = false) ∧
    (∀ s : Sys, (dropSenderRes s).senderAlive = false) ∧
    (∀ (receiverAlive : Bool) (q : List Job) (j : Job),
      ThreadPool.execute none receiverAlive q j = .error .unwrapNone) := by
  refine ⟨?_, fun s => rfl, fun r q j => rfl⟩
  intro s s' hst h
  exact ⟨step_submitted_of_dead hst h, step_senderDead_absorbing hst h⟩

theorem submit_after_shutdown_impossible_witness :
    ((acquireRes (dropSenderRes (initSys 1)) 0).submitted
        = (dropSenderRes (initSys 1)).submitted ∧
      (acquireRes (dropSenderRes (initSys 1)) 0).senderAlive = false) ∧
    (dropSenderRes (initSys 1)).senderAlive = false ∧
    ThreadPool.execute none true [] ⟨0, 0, false⟩ = .error .unwrapNone :=
  ⟨submit_after_shutdown_impossible.1 _ _
      (Step.acquire _ 0 (by decide) (by decide)) rfl,
    submit_after_shutdown_impossible.2.1 (initSys 1),
    submit_after_shutdown_impossible.2.2 true [] ⟨0, 0, false⟩⟩

/-- C4: when a worker's `recv()` returns the closed signal (`Err`), the
worker emits its shutting-down diagnostic, breaks out of the loop and
terminates; and `terminated` is absorbing — no step of the system ever
moves a terminated worker back to waiting or executing. -/
theorem worker_closed_signal_terminates :
    (∀ (s : Sys) (w : Nat),
      s.workers[w]? = some .hasLock → s.lockHolder = some w →
      s.queue = [] → s.senderAlive = false →
      Step s (recvErrRes s w) ∧
      (recvErrRes s w).workers[w]? = some .terminated ∧
      (recvErrRes s w).diag = s.diag ++ [w]) ∧
    (∀ (s s' : Sys) (w : Nat), Step s s' →
      s.workers[w]? = some .terminated → s'.workers[w]? = some .terminated) := by
  constructor
  · intro s w hw hl hq ha
    refine ⟨Step.recvErr s w hw hl hq ha, ?_, rfl⟩
    simp only [recvErrRes]
    exact List.getElem?_set_self (List.getElem?_eq_some.mp hw).1
  · intro s s' w hst h
    exact step_terminated_absorbing hst w h

theorem worker_closed_signal_terminates_witness :
    (Step (acquireRes (dropSenderRes (initSys 1)) 0)
        (recvErrRes (acquireRes (dropSenderRes (initSys 1)) 0) 0) ∧
      (recvErrRes (acquireRes (dropSenderRes (initSys 1)) 0) 0).workers[0]?
        = some .terminated ∧
      (recvErrRes (acquireRes (dropSenderRes (initSys 1)) 0) 0).diag
        = (acquireRes (dropSenderRes (initSys 1)) 0).diag ++ [0]) ∧
    (joinRes (recvErrRes (acquireRes (dropSenderRes (initSys 1)) 0) 0)
        0).workers[0]? = some .terminated :=
  ⟨worker_closed_signal_terminates.1 _ 0 (by decide) (by decide) (by decide)
      (by decide),
    worker_closed_signal_terminates.2 _ _ 0
      (Step.join _ 0 (by decide) (by decide) (by decide)) (by decide)⟩

/-- C8: a job that panics during execution is not caught by the worker
loop: the executing worker's thread dies (`panicked`), that state is
absorbing (the worker never takes another job), and no step ever adds a
worker to the pool, so the live execution capacity permanently shrinks by
one. -/
theorem job_panic_kills_worker_no_respawn :
    (∀ (s : Sys) (w : Nat) (j : Job),
      s.workers[w]? = some (.run j) → j.panics = true →
      (execRes s w j).workers[w]? = some .panicked ∧
      liveCount (execRes s w j).workers + 1 = liveCount s.workers) ∧
    (∀ (s s' : Sys) (w : Nat), Step s s' →
      s.workers[w]? = some .panicked → s'.workers[w]? = some .panicked) ∧
    (∀ s s' : Sys, Step s s' → s'.workers.length = s.workers.length) := by
  refine ⟨?_, ?_, ?_⟩
  · intro s w j hw hp
    have hif : (if j.panics then WPhase.panicked else WPhase.waiting)
        = WPhase.panicked := by simp [hp]
    constructor
    · simp only [execRes, hif]
      exact List.getElem?_set_self (List.getElem?_eq_some.mp hw).1
    · simp only [execRes, hif]
      exact liveCount_set_panicked hw
  · intro s s' w hst h
    exact step_panicked_absorbing hst w h
  · intro s s' hst
    exact step_workers_length hst

/-- State with one worker executing a job that panics. -/
def sPanicRun : Sys :=
  recvOkRes (acquireRes (submitRes (initSys 1) 0 true) 0) 0 ⟨0, 0, true⟩ []

theorem job_panic_kills_worker_no_respawn_witness :
    ((execRes sPanicRun 0 ⟨0, 0, true⟩).workers[0]? = some .panicked ∧
      liveCount (execRes sPanicRun 0 ⟨0, 0, true⟩).workers + 1
        = liveCount sPanicRun.workers) ∧
    (submitRes (execRes sPanicRun 0 ⟨0, 0, true⟩) 0 false).workers[0]?
      = some .panicked ∧
    (submitRes (execRes sPanicRun 0 ⟨0, 0, true⟩) 0 false).workers.length
      = (execRes sPanicRun 0 ⟨0, 0, true⟩).workers.length :=
  ⟨job_panic_kills_worker_no_respawn.1 sPanicRun 0 ⟨0, 0, true⟩ (by decide) rfl,
    job_panic_kills_worker_no_respawn.2.1 _ _ 0
      (Step.submit _ 0 false (by decide)) (by decide),
    job_panic_kills_worker_no_respawn.2.2 _ _
      (Step.submit _ 0 false (by decide))⟩

/-- C5: in every reachable state of the pool a worker that is executing a
job does not hold the receiver mutex (the `let` statement of the final
`Worker::new` drops the `MutexGuard` before `job()` runs, and `recvOkRes`
leaves the lock free), the pool never enters the `WorkerII` phase that
executes while holding the lock, and in the contrasted `WorkerII` variant
the guard is still held when job execution starts. -/
theorem lock_released_before_job_runs (size : Nat) (s : Sys)
    (h : Reachable size s) :
    (∀ (w : Nat) (j : Job), s.workers[w]? = some (.run j) →
      s.lockHolder ≠ some w) ∧
    (∀ (w : Nat) (j : Job), s.workers[w]? ≠ some (.runLocked j)) ∧
    (∀ (t : Sys) (w : Nat) (j : Job) (rest : List Job),
      (recvOkRes t w j rest).lockHolder = none) ∧
    (∀ (t : Sys) (w : Nat) (j : Job) (rest : List Job),
      (recvOkResII t w j rest).lockHolder = t.lockHolder) := by
  have inv := reachable_inv h
  refine ⟨?_, inv.noII, fun t w j rest => rfl, fun t w j rest => rfl⟩
  intro w j hw hl
  have h2 := inv.lock2 w hl
  rw [hw] at h2
  exact absurd h2 (by simp)

theorem lock_released_before_job_runs_witness :
    (∀ (w : Nat) (j : Job), sFinal.workers[w]? = some (.run j) →
      sFinal.lockHolder ≠ some w) ∧
    (∀ (w : Nat) (j : Job), sFinal.workers[w]? ≠ some (.runLocked j)) ∧
    (∀ (t : Sys) (w : Nat) (j : Job) (rest : List Job),
      (recvOkRes t w j rest).lockHolder = none) ∧
    (∀ (t : Sys) (w : Nat) (j : Job) (rest : List Job),
      (recvOkResII t w j rest).lockHolder = t.lockHolder) :=
  lock_released_before_job_runs 1 sFinal reachable_sFinal

/-- C3: teardown first takes and drops the sender (`dropSenderRes` sets
the sender `Option` to `None` and only then enters the join loop at index
0); whenever the main thread is at join index `i` the sender is already
dead and every worker before `i` has had its handle taken (exactly once,
`Some` → `None`) after its thread terminated; and when `drop` has
returned every worker's handle has been taken and every worker thread has
terminated. -/
theorem teardown_order_and_exhaustive_join (size : Nat) (s : Sys)
    (h : Reachable size s) :
    ((dropSenderRes s).senderAlive = false ∧
      (dropSenderRes s).main = .dropping 0) ∧
    (∀ i : Nat, s.main = .dropping i → s.senderAlive = false ∧
      ∀ k, k < i → s.handles[k]? = some false ∧
        s.workers[k]? = some .terminated) ∧
    (s.main = .done → s.senderAlive = false ∧
      ∀ k, k < size → s.handles[k]? = some false ∧
        s.workers[k]? = some .terminated) := by
  have inv := reachable_inv h
  obtain ⟨mRun, mDrop, mDone, mPanic⟩ := inv.mainI
  refine ⟨⟨rfl, rfl⟩, ?_, mDone⟩
  intro i hm
  obtain ⟨ha, _, hb, _⟩ := mDrop i hm
  exact ⟨ha, hb⟩

theorem teardown_order_and_exhaustive_join_witness :
    ((dropSenderRes sFinal).senderAlive = false ∧
      (dropSenderRes sFinal).main = .dropping 0) ∧
    (∀ i : Nat, sFinal.main = .dropping i → sFinal.senderAlive = false ∧
      ∀ k, k < i → sFinal.handles[k]? = some false ∧
        sFinal.workers[k]? = some .terminated) ∧
    (sFinal.main = .done → sFinal.senderAlive = false ∧
      ∀ k, k < 1 → sFinal.handles[k]? = some false ∧
        sFinal.workers[k]? = some .terminated) :=
  teardown_order_and_exhaustive_join 1 sFinal reachable_sFinal

/-- C7: in every reachable state, the jobs a single producer has seen
delivered form (in delivery order) the initial segment of that producer's
submission sequence — FIFO relative to one producer, with the rest still
queued in order; and the interleaving between producers is genuinely
unspecified: two reachable states submit the same two producers' jobs in
opposite global orders. -/
theorem fifo_per_producer (size : Nat) (s : Sys) (h : Reachable size s) :
    (∀ p : Nat,
      s.submitted.filter (fun j => j.producer == p)
        = s.delivered.filter (fun j => j.producer == p)
          ++ s.queue.filter (fun j => j.producer == p)) ∧
    (∃ s₁ s₂ : Sys, Reachable 1 s₁ ∧ Reachable 1 s₂ ∧
      s₁.submitted.map Job.producer = [0, 1] ∧
      s₂.submitted.map Job.producer = [1, 0]) := by
  have inv := reachable_inv h
  refine ⟨?_, sAB, sBA, reachable_sAB, reachable_sBA, by decide, by decide⟩
  intro p
  rw [inv.acct, List.filter_append]

theorem fifo_per_producer_witness :
    (∀ p : Nat,
      sFinal.submitted.filter (fun j => j.producer == p)
        = sFinal.delivered.filter (fun j => j.producer == p)
          ++ sFinal.queue.filter (fun j => j.producer == p)) ∧
    (∃ s₁ s₂ : Sys, Reachable 1 s₁ ∧ Reachable 1 s₂ ∧
      s₁.submitted.map Job.producer = [0, 1] ∧
      s₂.submitted.map Job.producer = [1, 0]) :=
  fifo_per_producer 1 sFinal reachable_sFinal

/-- C1: every submitted job is executed at most once and by at most one
worker in every reachable state (the execution log never records a job
identifier twice), and once teardown has completed every submitted job
has been executed exactly once — nothing is duplicated and nothing is
lost. -/
theorem job_executed_exactly_once (size : Nat) (s : Sys)
    (h : Reachable size s) (hpos : 0 < size) :
    ((s.log.map Prod.snd).Nodup ∧
      ∀ (j : Job) (w w' : Nat), (w, j.jid) ∈ s.log → (w', j.jid) ∈ s.log →
        w = w') ∧
    (s.main = .done → ∀ j ∈ s.submitted,
      (s.log.map Prod.snd).count j.jid = 1) := by
  have inv := reachable_inv h
  have hsubnodup : (s.submitted.map Job.jid).Nodup := by
    rw [inv.jids]
    exact List.nodup_range _
  have hsplit : s.submitted.map Job.jid
      = s.delivered.map Job.jid ++ s.queue.map Job.jid := by
    rw [inv.acct, List.map_append]
  have hdelnodup : (s.delivered.map Job.jid).Nodup := by
    rw [hsplit] at hsubnodup
    exact hsubnodup.of_append_left
  have hlognodup : (s.log.map Prod.snd).Nodup :=
    (inv.deliv.nodup_iff.mp hdelnodup).of_append_left
  refine ⟨⟨hlognodup, ?_⟩, ?_⟩
  · intro j w w' hmem hmem'
    have heq := List.inj_on_of_nodup_map hlognodup hmem hmem' rfl
    exact congrArg Prod.fst heq
  · intro hdone j hj
    obtain ⟨mRun, mDrop, mDone, mPanic⟩ := inv.mainI
    obtain ⟨ha, hall⟩ := mDone hdone
    have hterm : ∀ ph ∈ s.workers, ph = WPhase.terminated := by
      intro ph hph
      obtain ⟨k, hk, hg⟩ := List.getElem_of_mem hph
      have hk2 : k < size := by
        rw [← inv.lenW]
        exact hk
      have hkterm := (hall k hk2).2
      rw [List.getElem?_eq_getElem hk, hg] at hkterm
      exact Option.some.inj hkterm
    have hrun : runningJids s.workers = [] := by
      rw [runningJids]
      refine List.filterMap_eq_nil_iff.mpr ?_
      intro ph hph
      rw [hterm ph hph]
      rfl
    have hqueue : s.queue = [] := by
      have h0lt : 0 < s.workers.length := by
        rw [inv.lenW]
        exact hpos
      have h0 : s.workers[0]? = some .terminated := by
        rw [List.getElem?_eq_getElem h0lt,
          hterm _ (List.getElem_mem h0lt)]
      exact (inv.termQ ⟨0, h0⟩).2
    have hsubdel : s.submitted = s.delivered := by
      rw [inv.acct, hqueue, List.append_nil]
    have hperm : (s.submitted.map Job.jid).Perm (s.log.map Prod.snd) := by
      rw [hsubdel]
      have hd := inv.deliv
      rw [hrun, List.append_nil] at hd
      exact hd
    rw [← hperm.count_eq]
    exact List.count_eq_one_of_mem hsubnodup (List.mem_map_of_mem Job.jid hj)

theorem job_executed_exactly_once_witness :
    0 < 1 ∧ sFinal.main = .done ∧ (⟨0, 0, false⟩ : Job) ∈ sFinal.submitted ∧
    (sFinal.log.map Prod.snd).count 0 = 1 :=
  ⟨by decide, by decide, by decide,
    (job_executed_exactly_once 1 sFinal reachable_sFinal (by decide)).2
      (by decide) ⟨0, 0, false⟩ (by decide)⟩

/-- C10: if a joined worker thread terminated by panicking, the drop loop
itself panics at `join().unwrap()` and abandons the remaining workers
(their handles survive untouched); the drop completes normally exactly
when no joined thread panicked, in which case every handle is taken; and
in the system model a panicked main thread never resumes joining. -/
theorem drop_panics_on_panicked_worker (panicked : Nat → Bool)
    (p : ThreadPool) (pre post : List Worker) (w : Worker)
    (hsplit : p.workers = pre ++ w :: post) (hw : w.thread = some ())
    (hpan : panicked w.id = true)
    (hpre : ∀ v ∈ pre, panicked v.id = false) :
    ((ThreadPool.dropModel panicked p).2 = true ∧
      (ThreadPool.dropModel panicked p).1.workers
        = pre.map (fun v => ⟨v.id, none⟩) ++ (⟨w.id, none⟩ : Worker) :: post ∧
      (ThreadPool.dropModel panicked p).1.sender = none) ∧
    (∀ q : ThreadPool,
      (∀ v ∈ q.workers, v.thread = some () → panicked v.id = false) →
      (ThreadPool.dropModel panicked q).2 = false ∧
      (ThreadPool.dropModel panicked q).1.workers
        = q.workers.map (fun v => ⟨v.id, none⟩)) ∧
    (∀ q : ThreadPool, (ThreadPool.dropModel panicked q).2 = true ↔
      ∃ v ∈ q.workers, v.thread = some () ∧ panicked v.id = true) ∧
    (∀ s s' : Sys, Step s s' → s.main = .mainPanicked →
      s'.main = .mainPanicked) := by
  refine ⟨?_, ?_, ?_, ?_⟩
  · have hj := joinWorkers_panic panicked pre post w hw hpan hpre
    simp only [ThreadPool.dropModel, hsplit, hj]
    exact ⟨trivial, trivial, trivial⟩
  · intro q hq
    have hj := joinWorkers_clean panicked q.workers hq
    simp only [ThreadPool.dropModel, hj]
    exact ⟨trivial, trivial⟩
  · intro q
    exact joinWorkers_panics_iff panicked q.workers
  · intro s s' hst hm
    exact step_mainPanicked_absorbing hst hm

/-- Concrete pool of three workers for the drop-panic witness. -/
def poolW : ThreadPool :=
  ⟨[⟨0, some ()⟩, ⟨1, some ()⟩, ⟨2, some ()⟩], some ()⟩

/-- Worker 1 is the one whose thread panicked. -/
def panickedW : Nat → Bool := fun n => n == 1

/-- Two-worker system where worker 0 died from a panicking job and the
main thread then panicked unwrapping its join. -/
def sMP : Sys :=
  joinPanicRes (dropSenderRes (execRes (recvOkRes
    (acquireRes (submitRes (initSys 2) 0 true) 0) 0 ⟨0, 0, true⟩ [])
    0 ⟨0, 0, true⟩)) 0

theorem drop_panics_on_panicked_worker_witness :
    ((ThreadPool.dropModel panickedW poolW).2 = true ∧
      (ThreadPool.dropModel panickedW poolW).1.workers
        = ([⟨0, some ()⟩] : List Worker).map (fun v => ⟨v.id, none⟩)
          ++ (⟨1, none⟩ : Worker) :: [⟨2, some ()⟩] ∧
      (ThreadPool.dropModel panickedW poolW).1.sender = none) ∧
    ((ThreadPool.dropModel panickedW ⟨[⟨0, some ()⟩, ⟨2, some ()⟩], some ()⟩).2
        = false ∧
      (ThreadPool.dropModel panickedW
          ⟨[⟨0, some ()⟩, ⟨2, some ()⟩], some ()⟩).1.workers
        = ([⟨0, some ()⟩, ⟨2, some ()⟩] : List Worker).map
            (fun v => ⟨v.id, none⟩)) ∧
    ((ThreadPool.dropModel panickedW poolW).2 = true ↔
      ∃ v ∈ poolW.workers, v.thread = some () ∧ panickedW v.id = true) ∧
    (acquireRes sMP 1).main = .mainPanicked :=
  ⟨(drop_panics_on_panicked_worker panickedW poolW [⟨0, some ()⟩]
      [⟨2, some ()⟩] ⟨1, some ()⟩ rfl rfl (by decide) (by decide)).1,
    (drop_panics_on_panicked_worker panickedW poolW [⟨0, some ()⟩]
      [⟨2, some ()⟩] ⟨1, some ()⟩ rfl rfl (by decide) (by decide)).2.1
      ⟨[⟨0, some ()⟩, ⟨2, some ()⟩], some ()⟩ (by decide),
    (drop_panics_on_panicked_worker panickedW poolW [⟨0, some ()⟩]
      [⟨2, some ()⟩] ⟨1, some ()⟩ rfl rfl (by decide) (by decide)).2.2.1 poolW,
    (drop_panics_on_panicked_worker panickedW poolW [⟨0, some ()⟩]
      [⟨2, some ()⟩] ⟨1, some ()⟩ rfl rfl (by decide) (by decide)).2.2.2
      sMP (acquireRes sMP 1) (Step.acquire sMP 1 (by decide) (by decide)) rfl⟩
